import Mathlib

/-!
Verification of the URL-shortener service (Go, `internal/domain`,
`internal/repository`, `internal/service`, `internal/handler`).

The persistent store (a Postgres table with a uniqueness constraint on
`short_code`) is embedded as a list of rows; each repository method is
translated from the SQL statement it issues.  Timestamps are integers
(Go `time.Composite` nanoseconds); `time.Now().After(t)` is `now > t`.
The secure random source is an explicit stream of bytes; `rand.Read`
takes a prefix of it.  A Go runtime panic (out-of-range index) is
modelled as a distinguished abnormal outcome `Err.panicIndexOutOfRange`.
-/

namespace UrlShortener

/-- Error sentinels of `internal/domain/errors.go`, the generation errors of
`generateRandomCode` / `generateShortCode`, and the abnormal outcomes a call
can take (a Go panic, a failing UPDATE round-trip). -/
inductive Err where
  | urlNotFound
  | urlExpired
  | invalidURL
  | shortCodeAlreadyExists
  | invalidShortCode
  | randomSourceFailure
  | codeTooShort
  | panicIndexOutOfRange
  | exhausted
  | updateFailed
deriving Repr, DecidableEq

/-- The `domain.URL` entity (`internal/domain/url.go`).  `expiresAt` and
`lastAccessed` are nullable (`*time.Time`). -/
structure URL where
  id : Int
  shortCode : String
  originalURL : String
  createdAt : Int
  expiresAt : Option Int
  accessCount : Int
  lastAccessed : Option Int
deriving Repr, DecidableEq

/-- The method `URL.IsExpired`: nil means never expires, otherwise
`time.Now().After(*u.ExpiresAt)`, i.e. strictly after. -/
def URL.isExpired (u : URL) (now : Int) : Bool :=
  match u.expiresAt with
  | none => false
  | some t => decide (now > t)

/-- The method `URL.IncrementAccessCount`: bump the counter and stamp
`lastAccessed` with the current time. -/
def URL.incrementAccessCount (u : URL) (now : Int) : URL :=
  { u with accessCount := u.accessCount + 1, lastAccessed := some now }

/-- The `urls` table: one row per short URL. -/
abbrev Store := List URL

/-- Row lookup by `short_code` (the `SELECT ... WHERE short_code = $1`). -/
def findByCode (s : Store) (code : String) : Option URL :=
  s.find? fun v => v.shortCode == code

/-- The id a fresh row receives (a monotone sequence owned by the store). -/
def nextId (s : Store) : Int :=
  s.foldr (fun u m => max u.id m) 0 + 1

/-- The repository method `Create`: `INSERT ... RETURNING id`; a duplicate
`short_code` violates the unique constraint and is reported as
`ErrShortCodeAlreadyExists`.  On success the entity comes back with its
assigned id. -/
def repoCreate (s : Store) (u : URL) : Except Err (URL × Store) :=
  if s.any fun v => v.shortCode == u.shortCode then
    .error .shortCodeAlreadyExists
  else
    .ok ({ u with id := nextId s }, s ++ [{ u with id := nextId s }])

/-- The repository method `GetByShortCode`: `pgx.ErrNoRows` becomes
`ErrURLNotFound`. -/
def getByShortCode (s : Store) (code : String) : Except Err URL :=
  match findByCode s code with
  | some u => .ok u
  | none => .error .urlNotFound

/-- The repository method `Update`: `UPDATE urls SET access_count = $1,
last_accessed = $2 WHERE id = $3`; zero rows affected is `ErrURLNotFound`. -/
def repoUpdate (s : Store) (u : URL) : Except Err Store :=
  if s.any fun v => v.id == u.id then
    .ok (s.map fun v =>
      if v.id == u.id then
        { v with accessCount := u.accessCount, lastAccessed := u.lastAccessed }
      else v)
  else .error .urlNotFound

/-- The row predicate of the sweep:
`expires_at IS NOT NULL AND expires_at < now`. -/
def rowExpired (u : URL) (now : Int) : Bool :=
  match u.expiresAt with
  | none => false
  | some t => decide (t < now)

/-- The repository method `DeleteExpired`:
`DELETE FROM urls WHERE expires_at IS NOT NULL AND expires_at < $1`,
returning the number of rows affected. -/
def deleteExpired (s : Store) (now : Int) : Int × Store :=
  (((s.countP fun u => rowExpired u now : Nat) : Int),
   s.filter fun u => ! rowExpired u now)

/-- Descending insertion by `created_at` (the `ORDER BY created_at DESC`). -/
def insertByCreatedDesc (u : URL) : List URL → List URL
  | [] => [u]
  | v :: vs =>
    if u.createdAt ≥ v.createdAt then u :: v :: vs
    else v :: insertByCreatedDesc u vs

/-- The rows sorted newest first. -/
def sortByCreatedDesc (s : Store) : List URL :=
  s.foldr insertByCreatedDesc []

/-- The repository method `List`:
`SELECT ... ORDER BY created_at DESC LIMIT $1 OFFSET $2`. -/
def repoList (s : Store) (limit offset : Int) : List URL :=
  ((sortByCreatedDesc s).drop offset.toNat).take limit.toNat

/-- The repository method `Count`: `SELECT COUNT(*) FROM urls`. -/
def repoCount (s : Store) : Int :=
  (s.length : Int)

/-- The configuration fields of `config.URLConfig` the service reads. -/
structure URLConfig where
  shortCodeLength : Nat
  defaultTTL : Int
  baseURL : String
deriving Repr, DecidableEq

/-- The alphabet of `base64.RawURLEncoding`. -/
def base64UrlAlphabet : List Char :=
  "ABCDEFGHIJKLMNOPQRSTUVWXYZabcdefghijklmnopqrstuvwxyz0123456789-_".toList

/-- Character of the base64url alphabet at a 6-bit index. -/
def b64Char (i : Nat) : Char :=
  match base64UrlAlphabet.get? i with
  | some c => c
  | none => 'A'

/-- The function `base64.RawURLEncoding.EncodeToString`: unpadded base64url,
three bytes at a time, a one-byte tail yields two symbols and a two-byte tail
three. -/
def rawURLEncode : List Nat → List Char
  | [] => []
  | [b0] => [b64Char (b0 / 4), b64Char (b0 % 4 * 16)]
  | [b0, b1] =>
    [b64Char (b0 / 4), b64Char (b0 % 4 * 16 + b1 / 16), b64Char (b1 % 16 * 4)]
  | b0 :: b1 :: b2 :: rest =>
    b64Char (b0 / 4) :: b64Char (b0 % 4 * 16 + b1 / 16) ::
    b64Char (b1 % 16 * 4 + b2 / 64) :: b64Char (b2 % 64) :: rawURLEncode rest

/-- The 62-character alphanumeric charset constant of `generateRandomCode`. -/
def urlCharset : List Char :=
  "abcdefghijklmnopqrstuvwxyzABCDEFGHIJKLMNOPQRSTUVWXYZ0123456789".toList

/-- Character of `urlCharset` at an index already reduced mod its length. -/
def charsetChar (i : Nat) : Char :=
  match urlCharset.get? i with
  | some c => c
  | none => 'a'

/-- The per-position remap loop of `generateRandomCode`: a `-` or `_` at
position `i` is replaced by `charset[int(randomBytes[i]) % len(charset)]`;
indexing `randomBytes` past its length is a Go runtime panic. -/
def remapChars (rb : List Nat) : Nat → List Char → Except Err (List Char)
  | _, [] => .ok []
  | i, c :: cs =>
    if c == '-' || c == '_' then
      match rb.get? i with
      | none => .error .panicIndexOutOfRange
      | some b =>
        match remapChars rb (i + 1) cs with
        | .ok rest => .ok (charsetChar (b % urlCharset.length) :: rest)
        | .error e => .error e
    else
      match remapChars rb (i + 1) cs with
      | .ok rest => .ok (c :: rest)
      | .error e => .error e

/-- The function `generateRandomCode(length)`: allocate
`ceil(length*6/8)` bytes, fill them from the secure random source
(`randomBytes` is that source's stream; too short a stream is the
`rand.Read` failure), base64url-encode, truncate to `length`, and remap
any `-` / `_` through the 62-character charset. -/
def generateRandomCode (length : Nat) (randomBytes : List Nat) : Except Err String :=
  let numBytes := length * 6 / 8 + if length * 6 % 8 ≠ 0 then 1 else 0
  if randomBytes.length < numBytes then .error .randomSourceFailure
  else
    let rb := randomBytes.take numBytes
    let encoded := rawURLEncode rb
    if encoded.length < length then .error .codeTooShort
    else
      match remapChars rb 0 (encoded.take length) with
      | .ok out => .ok (String.mk out)
      | .error e => .error e

/-- The attempt budget of `generateShortCode` (`const maxAttempts = 10`). -/
def maxAttempts : Nat := 10

/-- The body of the retry loop of `URLService.generateShortCode`:
generate a candidate from the random stream of this attempt, probe the
store; `ErrURLNotFound` accepts the candidate, any other probe error
aborts, a hit retries with the next attempt's stream.  `fuel` counts the
attempts that remain; running out is the exhaustion error. -/
def generateShortCodeFrom (s : Store) (length : Nat) (g : Nat → List Nat) :
    Nat → Nat → Except Err String
  | _, 0 => .error .exhausted
  | attempt, fuel + 1 =>
    match generateRandomCode length (g attempt) with
    | .error e => .error e
    | .ok code =>
      match getByShortCode s code with
      | .error .urlNotFound => .ok code
      | .error e => .error e
      | .ok _ => generateShortCodeFrom s length g (attempt + 1) fuel

/-- The method `URLService.generateShortCode`: the loop started at attempt 0
with a budget of `maxAttempts`. -/
def generateShortCode (s : Store) (length : Nat) (g : Nat → List Nat) :
    Except Err String :=
  generateShortCodeFrom s length g 0 maxAttempts

/-- Characters a URL scheme may contain after its initial letter
(as accepted by Go `net/url`). -/
def isSchemeTailChar (c : Char) : Bool :=
  c.isAlpha || c.isDigit || c == '+' || c == '-' || c == '.'

/-- Splits off the scheme of an absolute URL: the wellformed scheme before
the first `:` (reversed accumulator), and what follows the colon.  Models
the scheme extraction of Go `net/url.ParseRequestURI`. -/
def getSchemeAux : List Char → List Char → Option (List Char × List Char)
  | _, [] => none
  | acc, ':' :: rest => if acc.isEmpty then none else some (acc.reverse, rest)
  | acc, c :: rest =>
    if (acc.isEmpty && c.isAlpha) || (!acc.isEmpty && isSchemeTailChar c) then
      getSchemeAux (c :: acc) rest
    else none

/-- The authority component: characters up to the next `/`, `?` or `#`. -/
def takeHost : List Char → List Char
  | [] => []
  | c :: rest =>
    if c == '/' || c == '?' || c == '#' then [] else c :: takeHost rest

/-- ASCII lowercasing, as Go `net/url` applies to the scheme. -/
def lowerChar (c : Char) : Char :=
  if 'A' ≤ c ∧ c ≤ 'Z' then Char.ofNat (c.toNat + 32) else c

/-- The fragment of Go `net/url.ParseRequestURI` that
`URLService.validateURL` inspects: the (lowercased) scheme of an absolute
URL and its host; a URL without a `//` authority has an empty host. -/
def parseSchemeHost (s : String) : Option (String × String) :=
  match getSchemeAux [] s.toList with
  | none => none
  | some (sch, rest) =>
    match rest with
    | '/' :: '/' :: tail =>
      some (String.mk (sch.map lowerChar), String.mk (takeHost tail))
    | _ => some (String.mk (sch.map lowerChar), "")

/-- The method `URLService.validateURL`: reject the empty string, parse
failures, schemes other than `http` / `https`, and an empty host. -/
def validateURL (rawURL : String) : Except Err Unit :=
  if rawURL == "" then .error .invalidURL
  else
    match parseSchemeHost rawURL with
    | none => .error .invalidURL
    | some (scheme, host) =>
      if scheme != "http" && scheme != "https" then .error .invalidURL
      else if host == "" then .error .invalidURL
      else .ok ()

/-- A character admissible in a custom short code: `[A-Za-z0-9_-]`. -/
def isShortCodeChar (c : Char) : Bool :=
  (decide ('a' ≤ c) && decide (c ≤ 'z')) ||
  (decide ('A' ≤ c) && decide (c ≤ 'Z')) ||
  (decide ('0' ≤ c) && decide (c ≤ '9')) ||
  c == '-' || c == '_'

/-- The method `URLService.validateShortCode`: length in [3, 20] and every
character in `[A-Za-z0-9_-]`. -/
def validateShortCode (code : String) : Except Err Unit :=
  if code.length < 3 || code.length > 20 then .error .invalidShortCode
  else if code.toList.all isShortCodeChar then .ok ()
  else .error .invalidShortCode

/-- The method `URLService.CreateShortURL`: validate the URL; a non-empty
custom code is validated and used as is, otherwise a code is generated;
the expiry is `now + ttl` when `ttl > 0`, else `now + DefaultTTL` when that
is positive, else null; the entity starts with `accessCount = 0` and is
inserted through the repository. -/
def createShortURL (cfg : URLConfig) (s : Store) (now : Int) (g : Nat → List Nat)
    (originalURL customCode : String) (ttl : Int) : Except Err (URL × Store) :=
  match validateURL originalURL with
  | .error e => .error e
  | .ok _ =>
    let codeRes : Except Err String :=
      if customCode != "" then
        match validateShortCode customCode with
        | .error e => .error e
        | .ok _ => .ok customCode
      else
        generateShortCode s cfg.shortCodeLength g
    match codeRes with
    | .error e => .error e
    | .ok shortCode =>
      let expiresAt : Option Int :=
        if ttl > 0 then some (now + ttl)
        else if cfg.defaultTTL > 0 then some (now + cfg.defaultTTL)
        else none
      repoCreate s
        { id := 0, shortCode := shortCode, originalURL := originalURL,
          createdAt := now, expiresAt := expiresAt, accessCount := 0,
          lastAccessed := none }

/-- The method `URLService.GetOriginalURL`: look the code up; an expired
record fails with `ErrURLExpired`; otherwise increment the access count,
stamp `lastAccessed`, and persist through `Update` — a failing UPDATE
round-trip (`updateFails`) is logged and the incremented entity is
returned all the same.  The resulting store is returned alongside. -/
def getOriginalURL (s : Store) (now : Int) (updateFails : Bool) (code : String) :
    Except Err URL × Store :=
  match getByShortCode s code with
  | .error e => (.error e, s)
  | .ok u =>
    if u.isExpired now then (.error .urlExpired, s)
    else
      let u2 := u.incrementAccessCount now
      match (if updateFails then .error .updateFailed else repoUpdate s u2 :
          Except Err Store) with
      | .ok s2 => (.ok u2, s2)
      | .error _ => (.ok u2, s)

/-- The method `URLService.GetURLMetadata`: a bare `GetByShortCode`, no
expiry check and no write; the store comes back untouched.  The current
time is a parameter only to witness that the result does not depend on
it. -/
def getURLMetadata (s : Store) (now : Int) (code : String) :
    Except Err URL × Store :=
  (getByShortCode s code, s)

/-- The effective limit of `URLService.ListURLs`: non-positive or above
100 falls back to 20. -/
def effectiveLimit (limit : Int) : Int :=
  if limit ≤ 0 ∨ limit > 100 then 20 else limit

/-- The effective offset of `URLService.ListURLs`: negative becomes 0. -/
def effectiveOffset (offset : Int) : Int :=
  if offset < 0 then 0 else offset

/-- The method `URLService.ListURLs`: clamp, list the page, and count the
whole table. -/
def listURLs (s : Store) (limit offset : Int) : List URL × Int :=
  (repoList s (effectiveLimit limit) (effectiveOffset offset), repoCount s)

/-- The method `URLService.CleanupExpired`: delegates to the repository
sweep `DeleteExpired`. -/
def cleanupExpired (s : Store) (now : Int) : Int × Store :=
  deleteExpired s now

/-- The handler `URLHandler.handleServiceError`: each domain sentinel maps
to its fixed HTTP status, everything else collapses to 500. -/
def handleServiceError : Err → Nat
  | .urlNotFound => 404
  | .urlExpired => 410
  | .invalidURL => 400
  | .shortCodeAlreadyExists => 409
  | .invalidShortCode => 400
  | _ => 500

instance {ε α : Type} [DecidableEq ε] [DecidableEq α] :
    DecidableEq (Except ε α) := fun x y =>
  match x, y with
  | .ok a, .ok b =>
    if h : a = b then .isTrue (by rw [h])
    else .isFalse (by intro hc; injection hc; contradiction)
  | .ok _, .error _ => .isFalse (by intro hc; injection hc)
  | .error _, .ok _ => .isFalse (by intro hc; injection hc)
  | .error e, .error f =>
    if h : e = f then .isTrue (by rw [h])
    else .isFalse (by intro hc; injection hc; contradiction)

/-- A concrete record several witnesses use: expiry at time 10. -/
def wRecord : URL :=
  { id := 1, shortCode := "abc", originalURL := "https://example.com",
    createdAt := 0, expiresAt := some 10, accessCount := 3,
    lastAccessed := none }

/-- A concrete unexpiring record used by the sweep witness. -/
def wRecordNoExpiry : URL :=
  { id := 2, shortCode := "xyz", originalURL := "https://example.com",
    createdAt := 1, expiresAt := none, accessCount := 0,
    lastAccessed := none }

/-- A character in `[A-Za-z0-9]`, the output charset the spec promises for
generated codes. -/
def isAlphanumChar (c : Char) : Bool :=
  (decide ('a' ≤ c) && decide (c ≤ 'z')) ||
  (decide ('A' ≤ c) && decide (c ≤ 'Z')) ||
  (decide ('0' ≤ c) && decide (c ≤ '9'))

/-- The first character of a generation result, when it produced a code. -/
def firstOutputChar (r : Except Err String) : Option Char :=
  match r with
  | .ok s => s.toList.head?
  | .error _ => none

/-- Attempt `i` of the generation loop produced a code the store already
uses (the probe finds a row). -/
def candidateInUse (s : Store) (length : Nat) (g : Nat → List Nat) (i : Nat) :
    Prop :=
  ∃ code, generateRandomCode length (g i) = .ok code ∧
    (findByCode s code).isSome = true

/-- A random stream of all-zero bytes, for witnesses. -/
def zeroStream : Nat → List Nat := fun _ => [0, 0, 0, 0, 0, 0]

/-- The configuration the creation witnesses use: default code length 7,
no default TTL. -/
def wConfig : URLConfig :=
  { shortCodeLength := 7, defaultTTL := 0, baseURL := "http://localhost:8080" }

/-- The record the creation witness produces: custom code `abc`, created
at time 0 with no TTL against an empty store. -/
def wCreated : URL :=
  { id := 1, shortCode := "abc", originalURL := "https://example.com",
    createdAt := 0, expiresAt := none, accessCount := 0,
    lastAccessed := none }

/-- C1: a redirect read of a record whose expiry is non-null and earlier
than the current time fails with the Expired condition; the access count
is not incremented, `lastAccessed` is not set, and the store — the record
included — comes back exactly as it was. -/
theorem getOriginalURL_expired_untouched (s : Store) (now t : Int)
    (updateFails : Bool) (code : String) (u : URL)
    (hfind : findByCode s code = some u)
    (hexp : u.expiresAt = some t) (hlt : t < now) :
    getOriginalURL s now updateFails code = (.error .urlExpired, s) := by
  have hex : u.isExpired now = true := by
    unfold URL.isExpired
    rw [hexp]
    exact decide_eq_true hlt
  unfold getOriginalURL getByShortCode
  rw [hfind]
  simp [hex]

/-- C1 witness: the concrete expired record, read at time 11. -/
theorem getOriginalURL_expired_untouched_witness :
    getOriginalURL [wRecord] 11 false "abc" = (.error .urlExpired, [wRecord]) :=
  getOriginalURL_expired_untouched [wRecord] 11 10 false "abc" wRecord
    (by decide) (by decide) (by decide)

/-- C2: a redirect read of a non-expired record succeeds and returns the
record with its access count incremented by exactly 1 and `lastAccessed`
set to the current time, whether or not persisting that update fails —
the update failure is never propagated to the caller. -/
theorem getOriginalURL_success_increments (s : Store) (now : Int)
    (updateFails : Bool) (code : String) (u : URL)
    (hfind : findByCode s code = some u)
    (hexp : ∀ t, u.expiresAt = some t → ¬ t < now) :
    (getOriginalURL s now updateFails code).1 =
      .ok { u with accessCount := u.accessCount + 1,
                   lastAccessed := some now } := by
  have hex : u.isExpired now = false := by
    unfold URL.isExpired
    cases h : u.expiresAt with
    | none => rfl
    | some t =>
      have := hexp t h
      simpa using this
  unfold getOriginalURL getByShortCode
  rw [hfind]
  simp only [hex]
  cases updateFails with
  | true => rfl
  | false =>
    simp only [Bool.false_eq_true, if_false]
    cases hu : repoUpdate s (u.incrementAccessCount now) with
    | ok s2 => rfl
    | error e => rfl

/-- C2 witness: the concrete record read at time 5, with the UPDATE
round-trip failing. -/
theorem getOriginalURL_success_increments_witness :
    (getOriginalURL [wRecord] 5 true "abc").1 =
      .ok { wRecord with accessCount := wRecord.accessCount + 1,
                         lastAccessed := some 5 } :=
  getOriginalURL_success_increments [wRecord] 5 true "abc" wRecord
    (by decide)
    (fun t ht => by
      have h10 : t = 10 := by
        have : (some 10 : Option Int) = some t := ht
        injection this with h2
        omega
      omega)

/-- C10: a metadata read of any stored record succeeds and returns the
record exactly as stored, at every current time — expired or not — and
the store, every field of every record included, comes back unchanged. -/
theorem getURLMetadata_pure (s : Store) (now : Int) (code : String) (u : URL)
    (hfind : findByCode s code = some u) :
    getURLMetadata s now code = (.ok u, s) := by
  unfold getURLMetadata getByShortCode
  rw [hfind]

/-- C10 witness: the concrete record read at time 100, well past its
expiry. -/
theorem getURLMetadata_pure_witness :
    getURLMetadata [wRecord] 100 "abc" = (.ok wRecord, [wRecord]) :=
  getURLMetadata_pure [wRecord] 100 "abc" wRecord (by decide)

/-- C8: the listing clamps — a non-positive limit falls back to 20, the
effective limit always lies in (0, 100] (so a limit above 100 is never
honored above 100, and an in-range limit is kept), a negative offset
becomes 0, a non-negative one is kept — and the returned total is the
full table cardinality, independent of limit and offset. -/
theorem listURLs_clamps (s : Store) (limit offset : Int) :
    (limit ≤ 0 → effectiveLimit limit = 20)
    ∧ 0 < effectiveLimit limit
    ∧ effectiveLimit limit ≤ 100
    ∧ (0 < limit → limit ≤ 100 → effectiveLimit limit = limit)
    ∧ (100 < limit → effectiveLimit limit = 20)
    ∧ (offset < 0 → effectiveOffset offset = 0)
    ∧ (0 ≤ offset → effectiveOffset offset = offset)
    ∧ (listURLs s limit offset).2 = (s.length : Int) := by
  unfold effectiveLimit effectiveOffset listURLs repoCount
  refine ⟨?_, ?_, ?_, ?_, ?_, ?_, ?_, rfl⟩ <;> intros <;> split <;> omega

/-- C8 witness: limit -5 and offset -3 against a one-row table. -/
theorem listURLs_clamps_witness :
    effectiveLimit (-5) = 20 ∧ effectiveOffset (-3) = 0
    ∧ (listURLs [wRecord] (-5) (-3)).2 = 1 := by
  obtain ⟨h1, _, _, _, _, h6, _, h8⟩ := listURLs_clamps [wRecord] (-5) (-3)
  exact ⟨h1 (by decide), h6 (by decide), h8⟩

/-- C9: one sweep run deletes exactly the rows whose `expires_at` is
non-null and strictly before the sweep time — the row predicate of the
DELETE is equivalent to that condition — keeps every other row exactly as
it was (the remaining store is the filter of the original), and returns
the count of deleted rows. -/
theorem cleanupExpired_sweeps_exactly (s : Store) (now : Int) :
    ((cleanupExpired s now).2 = s.filter fun u => ! rowExpired u now)
    ∧ (∀ u, rowExpired u now = true ↔ ∃ t, u.expiresAt = some t ∧ t < now)
    ∧ (∀ u ∈ s, rowExpired u now = false → u ∈ (cleanupExpired s now).2)
    ∧ (∀ u ∈ (cleanupExpired s now).2, u ∈ s ∧ rowExpired u now = false)
    ∧ ((cleanupExpired s now).1 =
        ((s.filter fun u => rowExpired u now).length : Int)) := by
  unfold cleanupExpired deleteExpired
  refine ⟨rfl, ?_, ?_, ?_, ?_⟩
  · intro u
    unfold rowExpired
    cases h : u.expiresAt with
    | none => simp
    | some t => simp
  · intro u hu hne
    simp [List.mem_filter, hu, hne]
  · intro u hu
    simp only [List.mem_filter, Bool.not_eq_true'] at hu
    exact ⟨hu.1, hu.2⟩
  · simp [List.countP_eq_length_filter]

/-- C9 witness: a table with one expired and one unexpiring row, swept at
time 100. -/
theorem cleanupExpired_sweeps_exactly_witness :
    (cleanupExpired [wRecord, wRecordNoExpiry] 100).2 = [wRecordNoExpiry]
    ∧ (cleanupExpired [wRecord, wRecordNoExpiry] 100).1 = 1 := by
  obtain ⟨h1, _, _, _, h5⟩ :=
    cleanupExpired_sweeps_exactly [wRecord, wRecordNoExpiry] 100
  refine ⟨?_, ?_⟩
  · rw [h1]; decide
  · rw [h5]; decide

/-- Every character the base64url table yields is a dash, an underscore,
or alphanumeric. -/
theorem b64Char_cases (i : Nat) :
    b64Char i = '-' ∨ b64Char i = '_' ∨ isAlphanumChar (b64Char i) = true := by
  unfold b64Char
  cases h : base64UrlAlphabet.get? i with
  | none => right; right; decide
  | some c =>
    have hm : c ∈ base64UrlAlphabet := List.get?_mem h
    have hall : ∀ x ∈ base64UrlAlphabet,
        x = '-' ∨ x = '_' ∨ isAlphanumChar x = true := by decide
    exact hall c hm

/-- Every character of a base64url encoding is a dash, an underscore, or
alphanumeric. -/
theorem rawURLEncode_mem : ∀ (bs : List Nat) (c : Char), c ∈ rawURLEncode bs →
    c = '-' ∨ c = '_' ∨ isAlphanumChar c = true
  | [], c, hc => by simp [rawURLEncode] at hc
  | [b0], c, hc => by
    simp only [rawURLEncode, List.mem_cons, List.not_mem_nil, or_false] at hc
    rcases hc with h | h
    · exact h ▸ b64Char_cases _
    · exact h ▸ b64Char_cases _
  | [b0, b1], c, hc => by
    simp only [rawURLEncode, List.mem_cons, List.not_mem_nil, or_false] at hc
    rcases hc with h | h | h
    · exact h ▸ b64Char_cases _
    · exact h ▸ b64Char_cases _
    · exact h ▸ b64Char_cases _
  | b0 :: b1 :: b2 :: rest, c, hc => by
    simp only [rawURLEncode, List.mem_cons] at hc
    rcases hc with h | h | h | h | h
    · exact h ▸ b64Char_cases _
    · exact h ▸ b64Char_cases _
    · exact h ▸ b64Char_cases _
    · exact h ▸ b64Char_cases _
    · exact rawURLEncode_mem rest c h

/-- Every character the remap charset yields is alphanumeric. -/
theorem charsetChar_alphanum (i : Nat) : isAlphanumChar (charsetChar i) = true := by
  unfold charsetChar
  cases h : urlCharset.get? i with
  | none => decide
  | some c =>
    have hm : c ∈ urlCharset := List.get?_mem h
    have hall : ∀ x ∈ urlCharset, isAlphanumChar x = true := by decide
    exact hall c hm

/-- The remap loop preserves the number of characters. -/
theorem remapChars_ok_length (rb : List Nat) (cs : List Char) :
    ∀ (i : Nat) (out : List Char),
      remapChars rb i cs = .ok out → out.length = cs.length := by
  induction cs with
  | nil =>
    intro i out h
    simp only [remapChars] at h
    injection h with h2
    rw [← h2]
  | cons c cs ih =>
    intro i out h
    simp only [remapChars] at h
    split at h
    · cases hg : rb.get? i with
      | none => rw [hg] at h; exact absurd h (by simp)
      | some b =>
        rw [hg] at h
        cases hr : remapChars rb (i + 1) cs with
        | ok rest =>
          rw [hr] at h
          injection h with h2
          rw [← h2]
          simp [ih (i + 1) rest hr]
        | error e => rw [hr] at h; exact absurd h (by simp)
    · cases hr : remapChars rb (i + 1) cs with
      | ok rest =>
        rw [hr] at h
        injection h with h2
        rw [← h2]
        simp [ih (i + 1) rest hr]
      | error e => rw [hr] at h; exact absurd h (by simp)

/-- Characters surviving the remap loop are alphanumeric, provided every
input character was a dash, an underscore, or alphanumeric. -/
theorem remapChars_ok_mem (rb : List Nat) (cs : List Char) :
    ∀ (i : Nat) (out : List Char),
      remapChars rb i cs = .ok out →
      (∀ c ∈ cs, c = '-' ∨ c = '_' ∨ isAlphanumChar c = true) →
      ∀ c ∈ out, isAlphanumChar c = true := by
  induction cs with
  | nil =>
    intro i out h hcs c hc
    simp only [remapChars] at h
    injection h with h2
    rw [← h2] at hc
    simp at hc
  | cons d cs ih =>
    intro i out h hcs c hc
    simp only [remapChars] at h
    split at h
    · cases hg : rb.get? i with
      | none => rw [hg] at h; exact absurd h (by simp)
      | some b =>
        rw [hg] at h
        cases hr : remapChars rb (i + 1) cs with
        | ok rest =>
          rw [hr] at h
          injection h with h2
          rw [← h2] at hc
          rcases List.mem_cons.mp hc with h3 | h3
          · rw [h3]; exact charsetChar_alphanum _
          · exact ih (i + 1) rest hr (fun x hx => hcs x (List.mem_cons_of_mem d hx)) c h3
        | error e => rw [hr] at h; exact absurd h (by simp)
    · rename_i hd
      cases hr : remapChars rb (i + 1) cs with
      | ok rest =>
        rw [hr] at h
        injection h with h2
        rw [← h2] at hc
        rcases List.mem_cons.mp hc with h3 | h3
        · rw [h3]
          rcases hcs d (List.mem_cons_self d cs) with h4 | h4 | h4
          · exfalso; apply hd; rw [h4]; decide
          · exfalso; apply hd; rw [h4]; decide
          · exact h4
        · exact ih (i + 1) rest hr
            (fun x hx => hcs x (List.mem_cons_of_mem d hx)) c h3
      | error e => rw [hr] at h; exact absurd h (by simp)

/-- C3: whenever `generateRandomCode` returns a code, the code has exactly
the requested length and every character is in `[A-Za-z0-9]`. -/
theorem generateRandomCode_ok_spec (L : Nat) (bytes : List Nat) (code : String)
    (h : generateRandomCode L bytes = .ok code) :
    code.length = L ∧ code.toList.all isAlphanumChar = true := by
  simp only [generateRandomCode] at h
  set nB := L * 6 / 8 + if L * 6 % 8 ≠ 0 then 1 else 0 with hnB
  by_cases h1 : bytes.length < nB
  · rw [if_pos h1] at h
    exact absurd h (by simp)
  rw [if_neg h1] at h
  by_cases h2 : (rawURLEncode (bytes.take nB)).length < L
  · rw [if_pos h2] at h
    exact absurd h (by simp)
  rw [if_neg h2] at h
  cases hr : remapChars (bytes.take nB) 0
      ((rawURLEncode (bytes.take nB)).take L) with
  | ok out =>
    rw [hr] at h
    injection h with h3
    rw [← h3]
    constructor
    · show out.length = L
      rw [remapChars_ok_length _ _ _ _ hr]
      rw [List.length_take]
      omega
    · show out.all isAlphanumChar = true
      rw [List.all_eq_true]
      exact remapChars_ok_mem _ _ _ _ hr
        (fun c hc => rawURLEncode_mem _ c (List.take_subset _ _ hc))
  | error e => rw [hr] at h; exact absurd h (by simp)

/-- C3 witness: length 7 on an all-zero stream yields a 7-character
alphanumeric code. -/
theorem generateRandomCode_ok_spec_witness :
    ("AAAAAAA").length = 7 ∧ ("AAAAAAA").toList.all isAlphanumChar = true :=
  generateRandomCode_ok_spec 7 [0, 0, 0, 0, 0, 0] "AAAAAAA" (by decide)

/-- C4: at the default configured length 7 the generator allocates only 6
random bytes, yet the byte stream `[0, 0, 0, 0, 15, 128]` makes the 7th
base64 character a `-`, whose remap indexes `randomBytes[6]` out of
bounds — in Go a runtime panic rather than a code or an error. -/
theorem generateRandomCode_panics :
    generateRandomCode 7 [0, 0, 0, 0, 15, 128] = .error .panicIndexOutOfRange := by
  decide

set_option maxRecDepth 4000 in
/-- C5: the generator is NOT uniform over the 62-symbol alphabet: at
length 4 (with the trailing bytes fixed, the first output character
depends only on the first random byte), 5 of the 256 equally likely
values of that byte yield first character `a` but only 4 yield `A` — the
base64 pass-through gives every symbol 4/256 and the `-`/`_` remap adds
its extra mass to `a`..`h` alone. -/
theorem generateRandomCode_not_uniform :
    ((List.range 256).countP fun b =>
        decide (firstOutputChar (generateRandomCode 4 [b, 0, 0]) = some 'a')) = 5
    ∧ ((List.range 256).countP fun b =>
        decide (firstOutputChar (generateRandomCode 4 [b, 0, 0]) = some 'A')) = 4 := by
  decide

/-- Attempts beyond the budget are never consulted: the loop's result
depends only on the streams of the attempts its fuel allows. -/
theorem generateShortCodeFrom_ext (s : Store) (length : Nat)
    (g g₂ : Nat → List Nat) :
    ∀ (fuel attempt : Nat),
      (∀ i, attempt ≤ i → i < attempt + fuel → g i = g₂ i) →
      generateShortCodeFrom s length g attempt fuel =
        generateShortCodeFrom s length g₂ attempt fuel := by
  intro fuel
  induction fuel with
  | zero => intro attempt _; rfl
  | succ n ih =>
    intro attempt h
    simp only [generateShortCodeFrom]
    rw [h attempt (Nat.le_refl _) (by omega)]
    cases generateRandomCode length (g₂ attempt) with
    | error e => rfl
    | ok code =>
      dsimp only
      cases getByShortCode s code with
      | error e => cases e <;> rfl
      | ok u => exact ih (attempt + 1) (fun i h1 h2 => h i (by omega) (by omega))

/-- When the first `k` attempts all collide and attempt `k`, still within
the budget, yields a code the probe reports absent, the loop accepts
exactly that code. -/
theorem generateShortCodeFrom_accept (s : Store) (length : Nat)
    (g : Nat → List Nat) :
    ∀ (k fuel attempt : Nat) (code : String),
      k < fuel →
      (∀ i, i < k → candidateInUse s length g (attempt + i)) →
      generateRandomCode length (g (attempt + k)) = .ok code →
      findByCode s code = none →
      generateShortCodeFrom s length g attempt fuel = .ok code := by
  intro k
  induction k with
  | zero =>
    intro fuel attempt code hk hcoll hgen hfind
    cases fuel with
    | zero => omega
    | succ n =>
      simp only [generateShortCodeFrom]
      rw [Nat.add_zero] at hgen
      rw [hgen]
      dsimp only
      unfold getByShortCode
      rw [hfind]
  | succ k ih =>
    intro fuel attempt code hk hcoll hgen hfind
    cases fuel with
    | zero => omega
    | succ n =>
      obtain ⟨c0, hc0, huse⟩ := hcoll 0 (Nat.succ_pos k)
      rw [Nat.add_zero] at hc0
      obtain ⟨u, hu⟩ := Option.isSome_iff_exists.mp huse
      simp only [generateShortCodeFrom]
      rw [hc0]
      dsimp only
      unfold getByShortCode
      rw [hu]
      dsimp only
      have hshift : attempt + (k + 1) = attempt + 1 + k := by omega
      rw [hshift] at hgen
      exact ih n (attempt + 1) code (by omega)
        (fun i hi => by
          have h3 := hcoll (i + 1) (by omega)
          have h4 : attempt + (i + 1) = attempt + 1 + i := by omega
          rwa [h4] at h3)
        hgen hfind

/-- When every attempt the fuel allows collides, the loop fails with the
exhaustion error. -/
theorem generateShortCodeFrom_exhaust (s : Store) (length : Nat)
    (g : Nat → List Nat) :
    ∀ (fuel attempt : Nat),
      (∀ i, i < fuel → candidateInUse s length g (attempt + i)) →
      generateShortCodeFrom s length g attempt fuel = .error .exhausted := by
  intro fuel
  induction fuel with
  | zero => intro attempt _; rfl
  | succ n ih =>
    intro attempt h
    obtain ⟨c0, hc0, huse⟩ := h 0 (Nat.succ_pos n)
    rw [Nat.add_zero] at hc0
    obtain ⟨u, hu⟩ := Option.isSome_iff_exists.mp huse
    simp only [generateShortCodeFrom]
    rw [hc0]
    dsimp only
    unfold getByShortCode
    rw [hu]
    exact ih (attempt + 1) (fun i hi => by
      have h3 := h (i + 1) (by omega)
      have h4 : attempt + (i + 1) = attempt + 1 + i := by omega
      rwa [h4] at h3)

/-- C6: the collision-resolution loop makes at most 10 attempts — its
outcome depends only on the first 10 candidate streams — accepts a
candidate exactly when the probe reports it absent (regenerating on each
collision), and fails with the exhaustion error, with no further retry,
when all 10 attempts find their candidate in use. -/
theorem generateShortCode_bounded (s : Store) (length : Nat)
    (g g₂ : Nat → List Nat) :
    ((∀ i, i < maxAttempts → g i = g₂ i) →
      generateShortCode s length g = generateShortCode s length g₂)
    ∧ (∀ k code, k < maxAttempts →
        (∀ i, i < k → candidateInUse s length g i) →
        generateRandomCode length (g k) = .ok code →
        findByCode s code = none →
        generateShortCode s length g = .ok code)
    ∧ ((∀ i, i < maxAttempts → candidateInUse s length g i) →
        generateShortCode s length g = .error .exhausted) := by
  refine ⟨?_, ?_, ?_⟩
  · intro h
    exact generateShortCodeFrom_ext s length g g₂ maxAttempts 0
      (fun i h1 h2 => h i (by omega))
  · intro k code hk hcoll hgen hfind
    exact generateShortCodeFrom_accept s length g k maxAttempts 0 code hk
      (fun i hi => by simpa using hcoll i hi)
      (by simpa using hgen) hfind
  · intro h
    exact generateShortCodeFrom_exhaust s length g maxAttempts 0
      (fun i hi => by simpa using h i hi)

/-- C6 witness: against the empty store the first candidate of the
all-zero stream is free, so the loop accepts it on its first attempt. -/
theorem generateShortCode_bounded_witness :
    generateShortCode [] 7 zeroStream = .ok "AAAAAAA" :=
  (generateShortCode_bounded [] 7 zeroStream zeroStream).2.1 0 "AAAAAAA"
    (by decide) (fun i hi => absurd hi (Nat.not_lt_zero i))
    (by decide) (by decide)

/-- A custom code that passes validation is non-empty (its length is at
least 3). -/
theorem validateShortCode_ok_ne_empty (code : String)
    (h : validateShortCode code = .ok ()) : code ≠ "" := by
  intro he
  subst he
  exact absurd h (by decide)

/-- C7: after a record with a valid URL and a valid custom code is
created, a second creation with the same custom code fails with the
AlreadyExists condition — mapped by the handler to HTTP 409 — no other
code is silently generated in its place, and the first record is still
retrievable, unmodified, from the store. -/
theorem createShortURL_duplicate_custom (cfg cfg₂ : URLConfig) (s s₂ : Store)
    (now now₂ ttl ttl₂ : Int) (g g₂ : Nat → List Nat)
    (url url₂ code : String) (u : URL)
    (hval : validateURL url = .ok ())
    (hval₂ : validateURL url₂ = .ok ())
    (hcode : validateShortCode code = .ok ())
    (h1 : createShortURL cfg s now g url code ttl = .ok (u, s₂)) :
    createShortURL cfg₂ s₂ now₂ g₂ url₂ code ttl₂ = .error .shortCodeAlreadyExists
    ∧ handleServiceError .shortCodeAlreadyExists = 409
    ∧ findByCode s₂ code = some u := by
  have hne : (code != "") = true := by
    rw [bne_iff_ne]
    exact validateShortCode_ok_ne_empty code hcode
  simp only [createShortURL] at h1
  rw [hval] at h1
  dsimp only at h1
  rw [if_pos hne, hcode] at h1
  dsimp only at h1
  simp only [repoCreate] at h1
  by_cases hany : (s.any fun v => v.shortCode == code) = true
  · rw [if_pos hany] at h1
    exact absurd h1 (by simp)
  rw [if_neg hany] at h1
  injection h1 with h2
  rw [Prod.mk.injEq] at h2
  obtain ⟨hu, hs⟩ := h2
  subst hu
  subst hs
  refine ⟨?_, rfl, ?_⟩
  · simp only [createShortURL]
    rw [hval₂]
    dsimp only
    rw [if_pos hne, hcode]
    dsimp only
    simp only [repoCreate]
    rw [if_pos]
    rw [List.any_append]
    simp
  · unfold findByCode
    rw [List.find?_append]
    have hnone : (s.find? fun v => v.shortCode == code) = none := by
      rw [List.find?_eq_none]
      intro x hx
      exact fun hpx => hany (List.any_eq_true.mpr ⟨x, hx, hpx⟩)
    rw [hnone]
    simp [List.find?_cons_of_pos]

/-- C7 witness: custom code `abc` created against an empty store, then
created again against the resulting store. -/
theorem createShortURL_duplicate_custom_witness :
    createShortURL wConfig [wCreated] 9 zeroStream "https://example.org" "abc" 0
      = .error .shortCodeAlreadyExists
    ∧ handleServiceError .shortCodeAlreadyExists = 409
    ∧ findByCode [wCreated] "abc" = some wCreated :=
  createShortURL_duplicate_custom wConfig wConfig [] [wCreated] 0 9 0 0
    zeroStream zeroStream "https://example.com" "https://example.org" "abc"
    wCreated (by decide) (by decide) (by decide) (by decide)

end UrlShortener
